import Mathlib

/-!
Verification development for the HackRF RC controller
(source file rc_controller_soapy.py).

The development embeds, as Lean definitions:
  * RCControllerSignalGenerator.generate_signal (OOK command encoder),
  * RCController._modulate_signal (sub-carrier up-conversion),
  * RCController._transmit_command (chunked stream-write loop),
  * the scheduler state manipulated by the press / release handlers
    (tkinter after / after_cancel jobs, the current command buffer and
    the transmitted-buffer log),
and proves the behavioural properties stated about them.
-/

namespace RC

/-- Python membership test of a single character in a string
(the source tests, e.g., whether the substring "n" occurs in `command`;
for one-character needles this is character membership). -/
def strContains (s : String) (c : Char) : Bool := s.data.contains c

/-- Python list repetition `n * l` (the list `l` concatenated `n` times). -/
def pyMul {α : Type} (n : ℕ) (l : List α) : List α := (List.replicate n l).flatten

/-- RCControllerSignalGenerator._clock_period = 0.0005 (0.5 ms). -/
def clock_period : ℚ := 1 / 2000

/-- Samples per bit period: the source computes
int(self._sample_rate * self._clock_period); Python int() truncates,
which on nonnegative values is the floor. -/
def samples_per_bit (sample_rate : ℚ) : ℕ := (⌊sample_rate * clock_period⌋).toNat

/-- low  = [0] * int(sample_rate * clock_period) -/
def low (sr : ℚ) : List ℚ := List.replicate (samples_per_bit sr) 0

/-- high = [0.95] * int(sample_rate * clock_period) -/
def high (sr : ℚ) : List ℚ := List.replicate (samples_per_bit sr) 0.95

/-- long = 3 * high + low -/
def long (sr : ℚ) : List ℚ := pyMul 3 (high sr) ++ low sr

/-- short = high + low -/
def short (sr : ℚ) : List ℚ := high sr ++ low sr

/-- cmd_forward = 4 * long + 40 * short -/
def cmd_forward (sr : ℚ) : List ℚ := pyMul 4 (long sr) ++ pyMul 40 (short sr)

/-- cmd_forward_right = 4 * long + 46 * short -/
def cmd_forward_right (sr : ℚ) : List ℚ := pyMul 4 (long sr) ++ pyMul 46 (short sr)

/-- cmd_forward_left = 4 * long + 52 * short -/
def cmd_forward_left (sr : ℚ) : List ℚ := pyMul 4 (long sr) ++ pyMul 52 (short sr)

/-- cmd_reverse = 4 * long + 10 * short -/
def cmd_reverse (sr : ℚ) : List ℚ := pyMul 4 (long sr) ++ pyMul 10 (short sr)

/-- cmd_reverse_right = 4 * long + 34 * short -/
def cmd_reverse_right (sr : ℚ) : List ℚ := pyMul 4 (long sr) ++ pyMul 34 (short sr)

/-- cmd_reverse_left = 4 * long + 28 * short -/
def cmd_reverse_left (sr : ℚ) : List ℚ := pyMul 4 (long sr) ++ pyMul 28 (short sr)

/-- cmd_left = 4 * long + 58 * short -/
def cmd_left (sr : ℚ) : List ℚ := pyMul 4 (long sr) ++ pyMul 58 (short sr)

/-- cmd_right = 4 * long + 64 * short -/
def cmd_right (sr : ℚ) : List ℚ := pyMul 4 (long sr) ++ pyMul 64 (short sr)

/-- cmd_stop = 15 * (4 * long + 4 * short) -/
def cmd_stop (sr : ℚ) : List ℚ := pyMul 15 (pyMul 4 (long sr) ++ pyMul 4 (short sr))

/-- cmd_off = 10 * low -/
def cmd_off (sr : ℚ) : List ℚ := pyMul 10 (low sr)

/-- RCControllerSignalGenerator.generate_signal: the chain of substring
tests of the source; the final fall-through (no branch taken) is Python's
implicit return None, modelled as Option.none. -/
def generate_signal (sr : ℚ) (command : String) : Option (List ℚ) :=
  if strContains command 'n' || strContains command 'N' then
    (if strContains command 'e' || strContains command 'E' then
      some (cmd_forward_right sr)
    else if strContains command 'w' || strContains command 'W' then
      some (cmd_forward_left sr)
    else some (cmd_forward sr))
  else if strContains command 's' || strContains command 'S' then
    (if strContains command 'e' || strContains command 'E' then
      some (cmd_reverse_right sr)
    else if strContains command 'w' || strContains command 'W' then
      some (cmd_reverse_left sr)
    else some (cmd_reverse sr))
  else if strContains command 'e' || strContains command 'E' then
    some (cmd_right sr)
  else if strContains command 'w' || strContains command 'W' then
    some (cmd_left sr)
  else if strContains command 'x' || strContains command 'X' then
    some (cmd_stop sr)
  else if strContains command 'o' || strContains command 'O' then
    some (cmd_off sr)
  else none

/-- Spec-side shape of one long bit: 3 bit periods of 0.95 then one of 0. -/
def longBit (N : ℕ) : List ℚ := List.replicate (3 * N) 0.95 ++ List.replicate N 0

/-- Spec-side shape of one short bit: one bit period of 0.95 then one of 0. -/
def shortBit (N : ℕ) : List ℚ := List.replicate N 0.95 ++ List.replicate N 0

/-- Spec-side directional frame: 4 long bits then `c` short bits. -/
def frameSpec (N c : ℕ) : List ℚ := pyMul 4 (longBit N) ++ pyMul c (shortBit N)

/-- RCController._radio_center_frequency = 25e6. -/
def radio_center_frequency : ℚ := 25000000

/-- RCController._rc_control_frequency = 27e6. -/
def rc_control_frequency : ℚ := 27000000

/-- RCController._sample_rate = 8e6. -/
def sample_rate : ℚ := 8000000

/-- frequency_offset = self._rc_control_frequency - self._radio_center_frequency,
computed inside _modulate_signal. -/
def frequency_offset : ℚ := rc_control_frequency - radio_center_frequency

/-- A real baseband sample list viewed as complex samples
(np.array(cmd) entering the complex multiplication). -/
noncomputable def toComplex (l : List ℚ) : List ℂ :=
  l.map fun q : ℚ => Complex.ofReal ((q : ℝ))

/-- RCController._modulate_signal: t = np.arange(len(signal)) * 1/sample_rate,
and sample k is multiplied by exp(1j * 2 * pi * frequency_offset * t int k). -/
noncomputable def modulate_signal (signal : List ℂ) : List ℂ :=
  signal.mapIdx fun k x =>
    x * Complex.exp (Complex.I * Complex.ofReal
      (2 * Real.pi * ((frequency_offset : ℝ)) * (k * (1 / ((sample_rate : ℝ))))))

/-- The modulated buffer installed by RCController._set_current_command:
modulate(np.array(4*cmd)) for cmd = generate_signal(direction); Python 4*cmd
tiles the baseband list four times. The None case of generate_signal
propagates. -/
noncomputable def set_current_command_buffer (direction : String) : Option (List ℂ) :=
  (generate_signal sample_rate direction).map fun cmd =>
    modulate_signal (toComplex (pyMul 4 cmd))

/-- RCController._stop_command, built once in __init__:
modulate(np.array(generate_signal("x"))), the raw single STOP frame
(no tiling). -/
noncomputable def stop_command : List ℂ :=
  modulate_signal (toComplex ((generate_signal sample_rate "x").getD []))

/-- The scheduler-visible state of RCController: the pending tkinter
after-jobs, the id counter, the saved self._job, the current modulated
command buffer, and the log of buffers handed to the stream-write loop. -/
structure ControllerState where
  pending : List ℕ
  nextId : ℕ
  job : ℕ
  current_command : Option (List ℂ)
  txLog : List (List ℂ)

/-- tkinter view.after(delay, callback): schedules a fresh job and returns
its id. -/
def after (s : ControllerState) : ControllerState × ℕ :=
  ({ s with pending := s.pending ++ [s.nextId], nextId := s.nextId + 1 }, s.nextId)

/-- tkinter view.after_cancel(job): removes the job from the pending set. -/
def after_cancel (s : ControllerState) (j : ℕ) : ControllerState :=
  { s with pending := s.pending.erase j }

/-- RCController._set_current_command(direction). -/
noncomputable def set_current_command (s : ControllerState) (direction : String) :
    ControllerState :=
  { s with current_command := set_current_command_buffer direction }

/-- RCController._button_press_handler(direction): after_cancel(self._job);
_set_current_command(direction); self._job = after(...). -/
noncomputable def button_press_handler (s : ControllerState) (direction : String) :
    ControllerState :=
  let s1 := after_cancel s s.job
  let s2 := set_current_command s1 direction
  let p := after s2
  { p.1 with job := p.2 }

/-- RCController._transmit_stop_command: after_cancel(self._job);
_transmit_command(self._stop_command) (logged as one transmission);
_set_current_command("o"); self._job = after(2, ...). -/
noncomputable def transmit_stop_command (s : ControllerState) : ControllerState :=
  let s1 := after_cancel s s.job
  let s2 := { s1 with txLog := s1.txLog ++ [stop_command] }
  let s3 := set_current_command s2 "o"
  let p := after s3
  { p.1 with job := p.2 }

/-- RCController._key_unpress_handler(*args): ignores its arguments and
runs _transmit_stop_command. -/
noncomputable def key_unpress_handler (s : ControllerState) (key : String) :
    ControllerState :=
  transmit_stop_command s

/-- RCController._transmit_current_command: run the TX loop once with the
current command buffer (logged as one transmission) and reschedule. -/
noncomputable def transmit_current_command (s : ControllerState) : ControllerState :=
  let s1 := { s with txLog := s.txLog ++ [s.current_command.getD []] }
  let p := after s1
  { p.1 with job := p.2 }

/-- RCController.start up to entering mainloop: _set_current_command("o")
then self._job = after(...). -/
noncomputable def controller_start (s : ControllerState) : ControllerState :=
  let s1 := set_current_command s "o"
  let p := after s1
  { p.1 with job := p.2 }

/-- State before RCController.start runs. -/
def init_state : ControllerState :=
  { pending := [], nextId := 0, job := 0, current_command := none, txLog := [] }

/-- Scheduler state after start, then press(N), then press(E), with no
retransmission tick in between. -/
noncomputable def press_n_then_e : ControllerState :=
  button_press_handler (button_press_handler (controller_start init_state) "N") "E"

/-- Result of the _transmit_command while-loop: the list of calls made to
radio.writeStream, each recorded as (offset of the slice start inside the
original buffer, requested size), and how the loop ended. -/
inductive TxOutcome where
  | ok (calls : List (ℤ × ℤ)) : TxOutcome
  | assertFail (calls : List (ℤ × ℤ)) : TxOutcome
  | outOfFuel : TxOutcome

/-- One execution of the _transmit_command while-loop, fuelled so that the
model is total: `ret j` is the value writeStream returns on the j-th call,
`bufLen` the current length of the sliced buffer, `numSamps` the running
numSampsTotal. Each iteration requests size = min(buffer.size, numSampsTotal);
a non-positive return hits the assert (assertFail); otherwise
numSampsTotal -= ret and the buffer is re-sliced buffer[ret:]
(length clamped at 0, as Python slicing does). -/
def transmitLoopAux (ret : ℕ → ℤ) (L : ℤ) :
    ℕ → ℕ → ℤ → ℤ → List (ℤ × ℤ) → TxOutcome
  | 0, _, _, numSamps, acc =>
    if numSamps = 0 then TxOutcome.ok acc else TxOutcome.outOfFuel
  | fuel + 1, k, bufLen, numSamps, acc =>
    if numSamps = 0 then TxOutcome.ok acc
    else if ret k ≤ 0 then
      TxOutcome.assertFail (acc ++ [(L - bufLen, min bufLen numSamps)])
    else
      transmitLoopAux ret L fuel (k + 1) (max (bufLen - ret k) 0)
        (numSamps - ret k) (acc ++ [(L - bufLen, min bufLen numSamps)])

/-- RCController._transmit_command on a buffer of length L:
numSampsTotal = len(buffer), loop while numSampsTotal != 0. Fuel L is
enough for any run in which every accepted count is positive. -/
def transmit_command (ret : ℕ → ℤ) (L : ℕ) : TxOutcome :=
  transmitLoopAux ret L L 0 L L []

/-- Cumulative accepted count before the n-th call to writeStream. -/
def pSum (ret : ℕ → ℤ) : ℕ → ℤ
  | 0 => 0
  | n + 1 => pSum ret n + ret n

/-- The expected call log: the j-th call starts at the first unacknowledged
sample (offset pSum j) and requests the whole remainder L - pSum j. -/
def callLog (ret : ℕ → ℤ) (L : ℤ) (n : ℕ) : List (ℤ × ℤ) :=
  (List.range n).map fun j => (pSum ret j, L - pSum ret j)

lemma pyMul_length {α : Type} (m : ℕ) (l : List α) : (pyMul m l).length = m * l.length := by
  simp [pyMul, List.length_flatten, List.map_replicate, List.sum_replicate, smul_eq_mul]

lemma pyMul_replicate {α : Type} (m n : ℕ) (a : α) :
    pyMul m (List.replicate n a) = List.replicate (m * n) a := by
  induction m with
  | zero => simp [pyMul]
  | succ m ih =>
    rw [pyMul, List.replicate_succ, List.flatten_cons]
    rw [pyMul] at ih
    rw [ih, Nat.succ_mul, Nat.add_comm, List.replicate_add]

lemma long_eq (sr : ℚ) : long sr = longBit (samples_per_bit sr) := by
  rw [long, longBit, high, low, pyMul_replicate]

lemma short_eq (sr : ℚ) : short sr = shortBit (samples_per_bit sr) := rfl

lemma longBit_length (N : ℕ) : (longBit N).length = 4 * N := by
  simp [longBit]; omega

lemma shortBit_length (N : ℕ) : (shortBit N).length = 2 * N := by
  simp [shortBit]; omega

lemma frameSpec_length (N c : ℕ) : (frameSpec N c).length = 4 * (4 * N) + c * (2 * N) := by
  simp [frameSpec, pyMul_length, longBit_length, shortBit_length]

lemma long_length (sr : ℚ) : (long sr).length = 4 * samples_per_bit sr := by
  rw [long_eq, longBit_length]

lemma short_length (sr : ℚ) : (short sr).length = 2 * samples_per_bit sr := by
  rw [short_eq, shortBit_length]

lemma cmd_forward_eq (sr : ℚ) : cmd_forward sr = frameSpec (samples_per_bit sr) 40 := by
  rw [cmd_forward, frameSpec, long_eq, short_eq]

lemma cmd_forward_right_eq (sr : ℚ) :
    cmd_forward_right sr = frameSpec (samples_per_bit sr) 46 := by
  rw [cmd_forward_right, frameSpec, long_eq, short_eq]

lemma cmd_forward_left_eq (sr : ℚ) :
    cmd_forward_left sr = frameSpec (samples_per_bit sr) 52 := by
  rw [cmd_forward_left, frameSpec, long_eq, short_eq]

lemma cmd_reverse_eq (sr : ℚ) : cmd_reverse sr = frameSpec (samples_per_bit sr) 10 := by
  rw [cmd_reverse, frameSpec, long_eq, short_eq]

lemma cmd_reverse_right_eq (sr : ℚ) :
    cmd_reverse_right sr = frameSpec (samples_per_bit sr) 34 := by
  rw [cmd_reverse_right, frameSpec, long_eq, short_eq]

lemma cmd_reverse_left_eq (sr : ℚ) :
    cmd_reverse_left sr = frameSpec (samples_per_bit sr) 28 := by
  rw [cmd_reverse_left, frameSpec, long_eq, short_eq]

lemma cmd_left_eq (sr : ℚ) : cmd_left sr = frameSpec (samples_per_bit sr) 58 := by
  rw [cmd_left, frameSpec, long_eq, short_eq]

lemma cmd_right_eq (sr : ℚ) : cmd_right sr = frameSpec (samples_per_bit sr) 64 := by
  rw [cmd_right, frameSpec, long_eq, short_eq]

lemma cmd_forward_length (sr : ℚ) :
    (cmd_forward sr).length = 96 * samples_per_bit sr := by
  simp [cmd_forward, pyMul_length, long_length, short_length]; ring

lemma cmd_forward_right_length (sr : ℚ) :
    (cmd_forward_right sr).length = 108 * samples_per_bit sr := by
  simp [cmd_forward_right, pyMul_length, long_length, short_length]; ring

lemma cmd_forward_left_length (sr : ℚ) :
    (cmd_forward_left sr).length = 120 * samples_per_bit sr := by
  simp [cmd_forward_left, pyMul_length, long_length, short_length]; ring

lemma cmd_reverse_length (sr : ℚ) :
    (cmd_reverse sr).length = 36 * samples_per_bit sr := by
  simp [cmd_reverse, pyMul_length, long_length, short_length]; ring

lemma cmd_reverse_right_length (sr : ℚ) :
    (cmd_reverse_right sr).length = 84 * samples_per_bit sr := by
  simp [cmd_reverse_right, pyMul_length, long_length, short_length]; ring

lemma cmd_reverse_left_length (sr : ℚ) :
    (cmd_reverse_left sr).length = 72 * samples_per_bit sr := by
  simp [cmd_reverse_left, pyMul_length, long_length, short_length]; ring

lemma cmd_left_length (sr : ℚ) :
    (cmd_left sr).length = 132 * samples_per_bit sr := by
  simp [cmd_left, pyMul_length, long_length, short_length]; ring

lemma cmd_right_length (sr : ℚ) :
    (cmd_right sr).length = 144 * samples_per_bit sr := by
  simp [cmd_right, pyMul_length, long_length, short_length]; ring

lemma cmd_stop_length (sr : ℚ) :
    (cmd_stop sr).length = 360 * samples_per_bit sr := by
  simp [cmd_stop, pyMul_length, long_length, short_length]; ring

lemma cmd_off_length (sr : ℚ) :
    (cmd_off sr).length = 10 * samples_per_bit sr := by
  simp [cmd_off, pyMul_length, low]

lemma samples_per_bit_src : samples_per_bit sample_rate = 4000 := by
  norm_num [samples_per_bit, clock_period, sample_rate]; decide

lemma modulate_signal_length (x : List ℂ) : (modulate_signal x).length = x.length := by
  simp [modulate_signal, List.length_mapIdx]

lemma toComplex_length (l : List ℚ) : (toComplex l).length = l.length := by
  rw [toComplex, List.length_map]

lemma abs_phasor (r : ℝ) :
    Complex.abs (Complex.exp (Complex.I * Complex.ofReal r)) = 1 := by
  rw [Complex.abs_exp]
  simp [Complex.mul_re]

/-- C1. For every direction token in {N,S,E,W,NE,NW,SE,SW}, the encoder
returns exactly 4 long bit shapes (3 bit periods of 0.95 then one of 0)
followed by the command-specific count of short bit shapes (one bit period
of 0.95 then one of 0), with counts forward=40 (N), forward-right=46 (NE),
forward-left=52 (NW), reverse=10 (S), reverse-right=34 (SE),
reverse-left=28 (SW), left=58 (W), right=64 (E); the total length is
4·(4N) + count·(2N), and at the source sample rate 8 MHz (N = 4000) the
forward frame has 384000 samples. -/
theorem generate_signal_directional_frames :
    (∀ sr : ℚ,
      generate_signal sr "N" = some (frameSpec (samples_per_bit sr) 40)
      ∧ generate_signal sr "NE" = some (frameSpec (samples_per_bit sr) 46)
      ∧ generate_signal sr "NW" = some (frameSpec (samples_per_bit sr) 52)
      ∧ generate_signal sr "S" = some (frameSpec (samples_per_bit sr) 10)
      ∧ generate_signal sr "SE" = some (frameSpec (samples_per_bit sr) 34)
      ∧ generate_signal sr "SW" = some (frameSpec (samples_per_bit sr) 28)
      ∧ generate_signal sr "W" = some (frameSpec (samples_per_bit sr) 58)
      ∧ generate_signal sr "E" = some (frameSpec (samples_per_bit sr) 64))
    ∧ (∀ N c : ℕ, (frameSpec N c).length = 4 * (4 * N) + c * (2 * N))
    ∧ (generate_signal sample_rate "N").map List.length = some 384000 := by
  refine ⟨fun sr => ?_, frameSpec_length, ?_⟩
  · exact ⟨congrArg some (cmd_forward_eq sr),
      congrArg some (cmd_forward_right_eq sr),
      congrArg some (cmd_forward_left_eq sr),
      congrArg some (cmd_reverse_eq sr),
      congrArg some (cmd_reverse_right_eq sr),
      congrArg some (cmd_reverse_left_eq sr),
      congrArg some (cmd_left_eq sr),
      congrArg some (cmd_right_eq sr)⟩
  · have h : generate_signal sample_rate "N" = some (cmd_forward sample_rate) := rfl
    rw [h, Option.map_some', cmd_forward_length, samples_per_bit_src]

/-- C2. The STOP token (letter x) encodes to 15 repetitions of 4 long bits
followed by 4 short bits, 15·(4·4N + 4·2N) samples in all, and the IDLE
token (letter o) encodes to 10·N samples all equal to 0. -/
theorem generate_signal_stop_idle (sr : ℚ) :
    generate_signal sr "x" = some (pyMul 15
      (pyMul 4 (longBit (samples_per_bit sr)) ++ pyMul 4 (shortBit (samples_per_bit sr))))
    ∧ (cmd_stop sr).length
      = 15 * (4 * (4 * samples_per_bit sr) + 4 * (2 * samples_per_bit sr))
    ∧ generate_signal sr "o" = some (List.replicate (10 * samples_per_bit sr) (0 : ℚ)) := by
  refine ⟨?_, ?_, ?_⟩
  · have h : cmd_stop sr = pyMul 15
        (pyMul 4 (longBit (samples_per_bit sr)) ++ pyMul 4 (shortBit (samples_per_bit sr))) := by
      rw [cmd_stop, long_eq, short_eq]
    exact congrArg some h
  · rw [cmd_stop_length]; ring
  · have h : cmd_off sr = List.replicate (10 * samples_per_bit sr) (0 : ℚ) := by
      rw [cmd_off, low, pyMul_replicate]
    exact congrArg some h

/-- C3. Modulation neither adds nor drops samples: the output has the same
length as the input, the k-th output sample is the k-th input sample times
exp(i·2π·frequency_offset·k/sample_rate) with frequency_offset the
difference between the RC control and radio center frequencies, and the
magnitude of each modulated sample equals the magnitude of the
corresponding input sample (exactly, in the real-number model). -/
theorem modulate_signal_spec (x : List ℂ) :
    (modulate_signal x).length = x.length
    ∧ (∀ k : ℕ, (modulate_signal x)[k]? = Option.map (fun v =>
        v * Complex.exp (Complex.I * Complex.ofReal
          (2 * Real.pi * ((frequency_offset : ℝ)) * (k * (1 / ((sample_rate : ℝ)))))))
        (x[k]?))
    ∧ (∀ k : ℕ, Option.map Complex.abs ((modulate_signal x)[k]?)
        = Option.map Complex.abs (x[k]?)) := by
  refine ⟨modulate_signal_length x, fun k => ?_, fun k => ?_⟩
  · simp only [modulate_signal, List.getElem?_mapIdx]
  · simp only [modulate_signal, List.getElem?_mapIdx]
    cases h : x[k]? with
    | none => simp
    | some v =>
      rw [Option.map_some', Option.map_some', Option.map_some', map_mul, abs_phasor,
        mul_one]

/-- C6 counterexample. The token "q" contains none of the recognized
letters, yet generate_signal does not raise anything: it falls off the end
of the if chain and silently returns the absent value (Python None). -/
theorem generate_signal_unrecognized_counterexample :
    generate_signal sample_rate "q" = none := rfl

/-- C6 (amended). For every token containing none of the letters
n, s, e, w, x (either case) and no o or O, generate_signal silently
returns the absent value None (modelled Option.none) instead of raising
an InvalidCommand error. -/
theorem generate_signal_unrecognized (sr : ℚ) (command : String)
    (hn : strContains command 'n' = false) (hN : strContains command 'N' = false)
    (hs : strContains command 's' = false) (hS : strContains command 'S' = false)
    (he : strContains command 'e' = false) (hE : strContains command 'E' = false)
    (hw : strContains command 'w' = false) (hW : strContains command 'W' = false)
    (hx : strContains command 'x' = false) (hX : strContains command 'X' = false)
    (ho : strContains command 'o' = false) (hO : strContains command 'O' = false) :
    generate_signal sr command = none := by
  simp [generate_signal, hn, hN, hs, hS, he, hE, hw, hW, hx, hX, ho, hO]

/-- Witness for the amended C6 at the concrete token "z". -/
theorem generate_signal_unrecognized_witness :
    generate_signal sample_rate "z" = none :=
  generate_signal_unrecognized sample_rate "z" (by decide) (by decide) (by decide)
    (by decide) (by decide) (by decide) (by decide) (by decide) (by decide)
    (by decide) (by decide) (by decide)

/-- C7 counterexample. At sample rate 3000 the encoder uses
int(3000 * 0.0005) = int(1.5) = 1 samples per bit, while rounding to the
nearest integer would give 2. -/
theorem samples_per_bit_round_counterexample :
    (samples_per_bit 3000 : ℤ) ≠ round ((3000 : ℚ) * clock_period) := by
  have h1 : samples_per_bit 3000 = 1 := by norm_num [samples_per_bit, clock_period]
  have h2 : round ((3000 : ℚ) * clock_period) = 2 := by
    norm_num [clock_period, round_eq]
  rw [h1, h2]
  decide

/-- C7 (amended). The samples-per-bit count is the truncation
int(sample_rate * clock_period) (the floor, for nonnegative rates), not
the nearest-integer rounding; and the length of every waveform
generate_signal returns is an integer multiple of that count. -/
theorem samples_per_bit_trunc_dvd :
    (∀ sr : ℚ, samples_per_bit sr = (⌊sr * clock_period⌋).toNat)
    ∧ ∀ (sr : ℚ) (command : String) (l : List ℚ),
        generate_signal sr command = some l → samples_per_bit sr ∣ l.length := by
  refine ⟨fun sr => rfl, fun sr command l h => ?_⟩
  unfold generate_signal at h
  split at h
  · split at h
    · injection h with h; subst h
      rw [cmd_forward_right_length]; exact dvd_mul_left _ _
    · split at h
      · injection h with h; subst h
        rw [cmd_forward_left_length]; exact dvd_mul_left _ _
      · injection h with h; subst h
        rw [cmd_forward_length]; exact dvd_mul_left _ _
  · split at h
    · split at h
      · injection h with h; subst h
        rw [cmd_reverse_right_length]; exact dvd_mul_left _ _
      · split at h
        · injection h with h; subst h
          rw [cmd_reverse_left_length]; exact dvd_mul_left _ _
        · injection h with h; subst h
          rw [cmd_reverse_length]; exact dvd_mul_left _ _
    · split at h
      · injection h with h; subst h
        rw [cmd_right_length]; exact dvd_mul_left _ _
      · split at h
        · injection h with h; subst h
          rw [cmd_left_length]; exact dvd_mul_left _ _
        · split at h
          · injection h with h; subst h
            rw [cmd_stop_length]; exact dvd_mul_left _ _
          · split at h
            · injection h with h; subst h
              rw [cmd_off_length]; exact dvd_mul_left _ _
            · exact Option.noConfusion h

/-- Witness for the amended C7: the forward frame at the source sample
rate has length divisible by the samples-per-bit count. -/
theorem samples_per_bit_trunc_dvd_witness :
    samples_per_bit sample_rate ∣ (cmd_forward sample_rate).length :=
  samples_per_bit_trunc_dvd.2 sample_rate "N" (cmd_forward sample_rate) rfl

/-- C8. Any token containing an N-class letter (n or N) and an E-class
letter (e or E), in any positions and any case, encodes to the
forward-right frame: 4 long bits then 46 short bits. -/
theorem generate_signal_diagonal (sr : ℚ) (command : String)
    (hn : (strContains command 'n' || strContains command 'N') = true)
    (he : (strContains command 'e' || strContains command 'E') = true) :
    generate_signal sr command = some (frameSpec (samples_per_bit sr) 46) := by
  unfold generate_signal
  rw [if_pos hn, if_pos he]
  exact congrArg some (cmd_forward_right_eq sr)

/-- Witness for C8 at the lower-case reversed-order token "en". -/
theorem generate_signal_diagonal_witness :
    generate_signal sample_rate "en" = some (frameSpec (samples_per_bit sample_rate) 46) :=
  generate_signal_diagonal sample_rate "en" (by decide) (by decide)

/-- C9. The transmit buffer of every command installed by
_set_current_command is the modulation of the encoded frame tiled 4 times,
of length 4 times the frame length, while the prebuilt STOP buffer is the
modulation of the raw single STOP frame, with no tiling, of length equal
to the STOP frame length. -/
theorem command_buffer_tiling :
    (∀ (d : String) (cmd : List ℚ), generate_signal sample_rate d = some cmd →
      set_current_command_buffer d = some (modulate_signal (toComplex (pyMul 4 cmd)))
      ∧ Option.map List.length (set_current_command_buffer d) = some (4 * cmd.length))
    ∧ stop_command = modulate_signal (toComplex (cmd_stop sample_rate))
    ∧ stop_command.length = (cmd_stop sample_rate).length := by
  have hstop : stop_command = modulate_signal (toComplex (cmd_stop sample_rate)) := rfl
  refine ⟨fun d cmd h => ⟨?_, ?_⟩, hstop, ?_⟩
  · rw [set_current_command_buffer, h, Option.map_some']
  · rw [set_current_command_buffer, h, Option.map_some', Option.map_some',
      modulate_signal_length, toComplex_length, pyMul_length]
  · rw [hstop, modulate_signal_length, toComplex_length]

/-- Witness for C9 at the forward command. -/
theorem command_buffer_tiling_witness :
    set_current_command_buffer "N"
      = some (modulate_signal (toComplex (pyMul 4 (cmd_forward sample_rate))))
    ∧ Option.map List.length (set_current_command_buffer "N")
      = some (4 * (cmd_forward sample_rate).length) :=
  command_buffer_tiling.1 "N" (cmd_forward sample_rate) rfl

/-- C10. Every key release, whatever the key and from any scheduler state,
runs the full stop sequence: the handler ignores its argument and equals
_transmit_stop_command, which cancels the saved job, transmits the
prebuilt STOP buffer exactly once, rebuilds the current command as the
4x-tiled idle (off) waveform, and schedules one fresh periodic job. -/
theorem key_unpress_stop_sequence (s : ControllerState) (key : String) :
    key_unpress_handler s key = transmit_stop_command s
    ∧ (key_unpress_handler s key).txLog = s.txLog ++ [stop_command]
    ∧ (key_unpress_handler s key).current_command
        = some (modulate_signal (toComplex (pyMul 4 (cmd_off sample_rate))))
    ∧ (key_unpress_handler s key).pending = s.pending.erase s.job ++ [s.nextId]
    ∧ (key_unpress_handler s key).job = s.nextId
    ∧ (key_unpress_handler s key).nextId = s.nextId + 1 :=
  ⟨rfl, rfl, rfl, rfl, rfl, rfl⟩

/-- C5 counterexample. After start, press(N), then press(E) with no tick
in between, exactly one periodic job is pending, but the buffer the job
will transmit is not the forward-right buffer: the second press replaced
the command with the frame for "E" alone. -/
theorem press_compose_counterexample :
    press_n_then_e.pending.length = 1
    ∧ press_n_then_e.current_command
      ≠ some (modulate_signal (toComplex (pyMul 4 (cmd_forward_right sample_rate)))) := by
  constructor
  · rfl
  · intro h
    have h1 : press_n_then_e.current_command
        = some (modulate_signal (toComplex (pyMul 4 (cmd_right sample_rate)))) := rfl
    rw [h1, Option.some_inj] at h
    have h2 := congrArg List.length h
    rw [modulate_signal_length, toComplex_length, pyMul_length, cmd_right_length,
      modulate_signal_length, toComplex_length, pyMul_length, cmd_forward_right_length,
      samples_per_bit_src] at h2
    norm_num at h2

/-- C5 (amended). After start, press(N), then press(E) before any
retransmission tick, exactly one periodic job is pending (the earlier job
was cancelled before the new one was installed), and that job transmits
the frame of the most recent press alone, the right frame (64 short
pulses) tiled 4 times, not a composed forward-right frame: the next tick
appends exactly that buffer to the transmission log. -/
theorem press_replaces_command :
    press_n_then_e.pending.length = 1
    ∧ press_n_then_e.current_command
      = some (modulate_signal (toComplex (pyMul 4 (cmd_right sample_rate))))
    ∧ (transmit_current_command press_n_then_e).txLog
      = press_n_then_e.txLog
        ++ [modulate_signal (toComplex (pyMul 4 (cmd_right sample_rate)))] := by
  have h1 : press_n_then_e.current_command
      = some (modulate_signal (toComplex (pyMul 4 (cmd_right sample_rate)))) := rfl
  have h2 : ∀ s : ControllerState, (transmit_current_command s).txLog
      = s.txLog ++ [s.current_command.getD []] := fun s => rfl
  refine ⟨rfl, h1, ?_⟩
  rw [h2, h1, Option.getD_some]

lemma tla_done (ret : ℕ → ℤ) (L : ℤ) (fuel k : ℕ) (bufLen : ℤ)
    (acc : List (ℤ × ℤ)) :
    transmitLoopAux ret L fuel k bufLen 0 acc = TxOutcome.ok acc := by
  cases fuel <;> simp [transmitLoopAux]

lemma tla_fail (ret : ℕ → ℤ) (L : ℤ) (fuel k : ℕ) (bufLen numSamps : ℤ)
    (acc : List (ℤ × ℤ)) (h : numSamps ≠ 0) (hr : ret k ≤ 0) :
    transmitLoopAux ret L (fuel + 1) k bufLen numSamps acc
      = TxOutcome.assertFail (acc ++ [(L - bufLen, min bufLen numSamps)]) := by
  rw [transmitLoopAux, if_neg h, if_pos hr]

lemma tla_step (ret : ℕ → ℤ) (L : ℤ) (fuel k : ℕ) (bufLen numSamps : ℤ)
    (acc : List (ℤ × ℤ)) (h : numSamps ≠ 0) (hr : ¬ ret k ≤ 0) :
    transmitLoopAux ret L (fuel + 1) k bufLen numSamps acc
      = transmitLoopAux ret L fuel (k + 1) (max (bufLen - ret k) 0)
          (numSamps - ret k) (acc ++ [(L - bufLen, min bufLen numSamps)]) := by
  rw [transmitLoopAux, if_neg h, if_neg hr]

lemma pSum_succ (ret : ℕ → ℤ) (n : ℕ) : pSum ret (n + 1) = pSum ret n + ret n := rfl

lemma pSum_mono (ret : ℕ → ℤ) {k m : ℕ} (hkm : k ≤ m)
    (hpos : ∀ j, k ≤ j → j < m → 0 ≤ ret j) : pSum ret k ≤ pSum ret m := by
  induction m with
  | zero =>
    have hk : k = 0 := Nat.le_zero.mp hkm
    subst hk
    exact le_refl _
  | succ m ih =>
    by_cases h : k ≤ m
    · have h1 := ih h fun j hj1 hj2 => hpos j hj1 (Nat.lt_succ_of_lt hj2)
      have h2 : 0 ≤ ret m := hpos m h (Nat.lt_succ_self m)
      rw [pSum_succ]
      omega
    · have hk : k = m + 1 := by omega
      subst hk
      exact le_refl _

/-- Invariant run of the write loop when every accepted count is positive
and never exceeds the requested size: starting at call k with
bufLen = numSampsTotal = L - pSum k, the loop completes, and its calls from
k on are at offsets pSum j with requested size L - pSum j. -/
lemma transmitLoop_ok (ret : ℕ → ℤ) (L : ℤ)
    (HB : ∀ j, pSum ret j < L → 0 < ret j ∧ ret j ≤ L - pSum ret j) :
    ∀ (fuel k : ℕ) (acc : List (ℤ × ℤ)),
      pSum ret k ≤ L → L - pSum ret k ≤ (fuel : ℤ) →
      ∃ n, k ≤ n ∧ pSum ret n = L ∧
        transmitLoopAux ret L fuel k (L - pSum ret k) (L - pSum ret k) acc
          = TxOutcome.ok (acc ++ (List.range' k (n - k)).map
              fun j => (pSum ret j, L - pSum ret j)) := by
  intro fuel
  induction fuel with
  | zero =>
    intro k acc hle hfuel
    have heq : pSum ret k = L := by push_cast at hfuel; omega
    refine ⟨k, le_refl k, heq, ?_⟩
    have h0 : L - pSum ret k = 0 := by omega
    rw [h0, tla_done, Nat.sub_self]
    simp
  | succ fuel ih =>
    intro k acc hle hfuel
    by_cases h0 : pSum ret k = L
    · refine ⟨k, le_refl k, h0, ?_⟩
      have hz : L - pSum ret k = 0 := by omega
      rw [hz, tla_done, Nat.sub_self]
      simp
    · have hlt : pSum ret k < L := lt_of_le_of_ne hle h0
      obtain ⟨hpos, hbound⟩ := HB k hlt
      have hnz : L - pSum ret k ≠ 0 := by omega
      have hr : ¬ ret k ≤ 0 := by omega
      have hnum : L - pSum ret k - ret k = L - pSum ret (k + 1) := by
        rw [pSum_succ]; ring
      have hmax : max (L - pSum ret k - ret k) 0 = L - pSum ret (k + 1) := by
        rw [hnum]
        exact max_eq_left (by rw [pSum_succ]; omega)
      obtain ⟨n, hkn, hn, hres⟩ := ih (k + 1) (acc ++ [(pSum ret k, L - pSum ret k)])
        (by rw [pSum_succ]; omega) (by rw [pSum_succ]; push_cast at hfuel ⊢; omega)
      refine ⟨n, by omega, hn, ?_⟩
      rw [tla_step ret L fuel k _ _ acc hnz hr, min_self, sub_sub_cancel, hmax, hnum,
        hres]
      congr 1
      rw [show n - k = (n - (k + 1)) + 1 by omega, List.range'_succ]
      simp

/-- Run of the write loop that reaches a non-positive accepted count at
call m after positive in-bound counts: the loop stops with the assertion
failure right after the m-th call. -/
lemma transmitLoop_fail (ret : ℕ → ℤ) (L : ℤ)
    (HB : ∀ j, pSum ret j < L → 0 < ret j → ret j ≤ L - pSum ret j) (m : ℕ)
    (hm : pSum ret m < L) (hretm : ret m ≤ 0) :
    ∀ (fuel k : ℕ) (acc : List (ℤ × ℤ)), k ≤ m →
      (∀ j, k ≤ j → j < m → 0 < ret j) →
      pSum ret k ≤ L → L - pSum ret k ≤ (fuel : ℤ) →
      transmitLoopAux ret L fuel k (L - pSum ret k) (L - pSum ret k) acc
        = TxOutcome.assertFail (acc ++ (List.range' k (m + 1 - k)).map
            fun j => (pSum ret j, L - pSum ret j)) := by
  intro fuel
  induction fuel with
  | zero =>
    intro k acc hkm hpos hle hfuel
    exfalso
    have hmono : pSum ret k ≤ pSum ret m :=
      pSum_mono ret hkm fun j h1 h2 => le_of_lt (hpos j h1 h2)
    push_cast at hfuel
    omega
  | succ fuel ih =>
    intro k acc hkm hpos hle hfuel
    have hmono : pSum ret k ≤ pSum ret m :=
      pSum_mono ret hkm fun j h1 h2 => le_of_lt (hpos j h1 h2)
    have hkL : pSum ret k < L := lt_of_le_of_lt hmono hm
    have hnz : L - pSum ret k ≠ 0 := by omega
    by_cases hkm' : k = m
    · subst hkm'
      rw [tla_fail ret L fuel k _ _ acc hnz hretm, min_self, sub_sub_cancel]
      congr 1
      rw [show k + 1 - k = 1 by omega, List.range'_one, List.map_singleton]
    · have hklt : k < m := by omega
      have hposk : 0 < ret k := hpos k (le_refl k) hklt
      have hbound : ret k ≤ L - pSum ret k := HB k hkL hposk
      have hr : ¬ ret k ≤ 0 := by omega
      have hnum : L - pSum ret k - ret k = L - pSum ret (k + 1) := by
        rw [pSum_succ]; ring
      have hmax : max (L - pSum ret k - ret k) 0 = L - pSum ret (k + 1) := by
        rw [hnum]
        exact max_eq_left (by rw [pSum_succ]; omega)
      rw [tla_step ret L fuel k _ _ acc hnz hr, min_self, sub_sub_cancel, hmax, hnum,
        ih (k + 1) (acc ++ [(pSum ret k, L - pSum ret k)]) (by omega)
          (fun j h1 h2 => hpos j (by omega) h2)
          (by rw [pSum_succ]; omega)
          (by rw [pSum_succ]; push_cast at hfuel ⊢; omega)]
      congr 1
      rw [show m + 1 - k = (m + 1 - (k + 1)) + 1 by omega, List.range'_succ]
      simp

/-- C4. The stream-write loop over a buffer of length L: whenever the
write primitive returns positive accepted counts that never exceed the
requested remainder, the loop calls the primitive until the cumulative
accepted count equals L and terminates, each call starting at the first
unacknowledged sample (offset = sum of previous accepted counts) and
requesting exactly the remainder; and if the primitive returns a
non-positive count while samples remain, the loop stops at the assertion
(an error) right after that call instead of looping forever. -/
theorem transmit_command_spec (ret : ℕ → ℤ) (L : ℕ)
    (HB : ∀ j, pSum ret j < (L : ℤ) → 0 < ret j → ret j ≤ (L : ℤ) - pSum ret j) :
    ((∀ j, pSum ret j < (L : ℤ) → 0 < ret j) →
      ∃ n, pSum ret n = (L : ℤ)
        ∧ transmit_command ret L = TxOutcome.ok (callLog ret (L : ℤ) n))
    ∧ (∀ m, (∀ j, j < m → 0 < ret j) → pSum ret m < (L : ℤ) → ret m ≤ 0 →
      transmit_command ret L
        = TxOutcome.assertFail (callLog ret (L : ℤ) (m + 1))) := by
  have h0 : (L : ℤ) - pSum ret 0 = (L : ℤ) := by
    show (L : ℤ) - 0 = (L : ℤ); ring
  constructor
  · intro hpos
    have HB' : ∀ j, pSum ret j < (L : ℤ) → 0 < ret j ∧ ret j ≤ (L : ℤ) - pSum ret j :=
      fun j hj => ⟨hpos j hj, HB j hj (hpos j hj)⟩
    obtain ⟨n, _, hn, hres⟩ := transmitLoop_ok ret L HB' L 0 []
      (by show (0:ℤ) ≤ (L:ℤ); positivity) (by rw [h0])
    refine ⟨n, hn, ?_⟩
    rw [h0] at hres
    rw [transmit_command, hres, callLog, List.range_eq_range', Nat.sub_zero,
      List.nil_append]
  · intro m hpos hm hr
    have h := transmitLoop_fail ret L HB m hm hr L 0 [] (Nat.zero_le m)
      (fun j _ h2 => hpos j h2)
      (by show (0:ℤ) ≤ (L:ℤ); positivity) (by rw [h0])
    rw [h0] at h
    rw [transmit_command, h, callLog, List.range_eq_range', Nat.sub_zero,
      List.nil_append]

/-- Witness for C4: a primitive that accepts one sample per call over a
buffer of length 2 completes with cumulative count 2. -/
theorem transmit_command_spec_witness :
    ∃ n, pSum (fun _ => 1) n = ((2 : ℕ) : ℤ)
      ∧ transmit_command (fun _ => 1) 2
        = TxOutcome.ok (callLog (fun _ => 1) ((2 : ℕ) : ℤ) n) :=
  (transmit_command_spec (fun _ => 1) 2
    (fun j hj hp => by
      show (1 : ℤ) ≤ ((2 : ℕ) : ℤ) - pSum (fun _ => 1) j
      omega)).1
    (fun j hj => by norm_num)

end RC
